import Mathlib

/-!
# Verification of the SEM-plan backend

Shallow embedding of the plan-synthesis pipeline of the `sem_backend`
repository (`main.py`, `schemas.py`): keyword filtering, ad-group
classification, PMax theme synthesis with its tolerant JSON recovery,
and the CPC/budget computation.  Python strings are modelled as `List
Char` at the working level and `String` at the interfaces; Python
numbers (`int`, `float`) are modelled as `Int`/`ℚ` with exact
arithmetic and round-half-to-even for `round(x, 2)`; fallible code is
modelled with `Option` (a `none` stands for an uncaught exception).
-/

namespace SemBackend

/-! ## Python string primitives -/

/-- Python `str.lower()` (per-character lowering; the pipeline only
lowers ASCII domain tokens and keyword text). -/
def pyLower (l : List Char) : List Char := l.map Char.toLower

/-- Python `str.strip()`: drop whitespace from both ends. -/
def pyStrip (l : List Char) : List Char :=
  ((l.dropWhile Char.isWhitespace).reverse.dropWhile Char.isWhitespace).reverse

/-- Python's substring test `pat in s`.  The empty pattern matches every
string, exactly as in Python. -/
def strIn (pat : List Char) : List Char → Bool
  | [] => pat.isEmpty
  | l@(_ :: xs) => pat.isPrefixOf l || strIn pat xs

/-- Python `s.split(sep)` for a single-character separator `sep`:
`"".split(",") = [""]`, `"a,".split(",") = ["a", ""]`. -/
def splitOnChar (c : Char) : List Char → List (List Char)
  | [] => [[]]
  | x :: xs =>
    if x = c then [] :: splitOnChar c xs
    else
      match splitOnChar c xs with
      | [] => [[x]]
      | p :: ps => (x :: p) :: ps

/-- Helper for `wsSplit`; `acc` holds the current token reversed. -/
def wsSplitAux : List Char → List Char → List (List Char)
  | [], acc => if acc.isEmpty then [] else [acc.reverse]
  | c :: cs, acc =>
    if c.isWhitespace then
      if acc.isEmpty then wsSplitAux cs [] else acc.reverse :: wsSplitAux cs []
    else wsSplitAux cs (c :: acc)

/-- Python `str.split()` with no argument: split on whitespace runs and
drop empty tokens (`"".split() = []`). -/
def wsSplit (l : List Char) : List (List Char) := wsSplitAux l []

/-! ## Decimal parsing (model of Python `float`) -/

def digitVal (c : Char) : Nat := c.toNat - 48

def natOfDigits (l : List Char) : Nat :=
  l.foldl (fun a c => 10 * a + digitVal c) 0

/-- Model of Python `float(s)` on the decimal literals the CPC strings
carry: an optional `'+'` sign followed by `digits`, `digits.digits`,
`digits.` or `.digits`.  (Python's `float` additionally accepts
exponents, `inf`/`nan` and digit underscores; those inputs cannot arise
from the keyword collaborator's `"$x.xx - $y.yy"` format and are
modelled as failures.  A `'-'` sign can never reach `float` here
because the caller splits the range string on `'-'` first.) -/
def parseUnsignedDecimal (l : List Char) : Option ℚ :=
  match l.dropWhile Char.isDigit with
  | [] =>
    if (l.takeWhile Char.isDigit).isEmpty then Option.none
    else some (natOfDigits (l.takeWhile Char.isDigit))
  | '.' :: fr =>
    if (fr.dropWhile Char.isDigit).isEmpty ∧
        ¬((l.takeWhile Char.isDigit).isEmpty ∧ (fr.takeWhile Char.isDigit).isEmpty) then
      some ((natOfDigits (l.takeWhile Char.isDigit) : ℚ) +
        (natOfDigits (fr.takeWhile Char.isDigit) : ℚ) /
          (10 : ℚ) ^ (fr.takeWhile Char.isDigit).length)
    else Option.none
  | _ => Option.none

def parseDecimal (l : List Char) : Option ℚ :=
  parseUnsignedDecimal (match l with | '+' :: r => r | _ => l)

/-- `float(p.strip().replace("$", ""))` applied to one part of a CPC
range string (main.py lines 204 and 268). -/
def pyFloatOfPart (p : List Char) : Option ℚ :=
  parseDecimal ((pyStrip p).filter (fun c => c ≠ '$'))

/-- The CPC-range parse of `generate_sem_plan`:
`low, high = [float(p.strip().replace("$", "")) for p in s.split("-")]`
followed by `(low + high) / 2.0`; any failure (wrong number of parts or
an unparseable part) is caught by the surrounding `try`. -/
def parseCpcRange (s : String) : Option ℚ :=
  match splitOnChar '-' s.data with
  | [a, b] =>
    match pyFloatOfPart a, pyFloatOfPart b with
    | some low, some high => some ((low + high) / 2)
    | _, _ => none
  | _ => none

/-! ## Rounding

Python's `round(x, 2)` rounds half to even.  The embedding computes on
exact rationals, so `round` is modelled as exact round-half-to-even at
two decimal places. -/

/-- Round to the nearest integer, ties to even. -/
def roundHalfEven (q : ℚ) : ℤ :=
  let f := ⌊q⌋
  let r := q - (f : ℚ)
  if r < 1 / 2 then f
  else if 1 / 2 < r then f + 1
  else if 2 ∣ f then f else f + 1

/-- Python `round(x, 2)` on an exact rational. -/
def round2 (q : ℚ) : ℚ := ((roundHalfEven (q * 100) : ℤ) : ℚ) / 100

theorem roundHalfEven_nonneg {q : ℚ} (h : 0 ≤ q) : 0 ≤ roundHalfEven q := by
  unfold roundHalfEven
  have hf : (0 : ℤ) ≤ ⌊q⌋ := Int.floor_nonneg.mpr h
  dsimp only
  split
  · exact hf
  · split
    · omega
    · split
      · exact hf
      · omega

theorem roundHalfEven_le_int {q : ℚ} {n : ℤ} (h : q ≤ (n : ℚ)) :
    roundHalfEven q ≤ n := by
  unfold roundHalfEven
  have hf : ⌊q⌋ ≤ n := by
    have := Int.floor_le_floor h
    simpa using this
  dsimp only
  split
  · exact hf
  · rename_i h1
    push_neg at h1
    have hlt : (⌊q⌋ : ℚ) < q := by
      have : (1 : ℚ) / 2 > 0 := by norm_num
      nlinarith [h1]
    have : ⌊q⌋ < n := by
      have : (⌊q⌋ : ℚ) < (n : ℚ) := lt_of_lt_of_le hlt h
      exact_mod_cast this
    split
    · omega
    · split
      · exact hf
      · omega

theorem round2_nonneg {q : ℚ} (h : 0 ≤ q) : 0 ≤ round2 q := by
  unfold round2
  have : (0 : ℤ) ≤ roundHalfEven (q * 100) :=
    roundHalfEven_nonneg (by positivity)
  positivity

/-- If `t` is an exact two-decimal value and `q ≤ t`, then rounding `q`
to two decimals cannot exceed `t`. -/
theorem round2_le_of_le {q t : ℚ} {k : ℤ} (ht : t = (k : ℚ) / 100)
    (h : q ≤ t) : round2 q ≤ t := by
  subst ht
  unfold round2
  have h100 : q * 100 ≤ (k : ℚ) := by linarith
  have := roundHalfEven_le_int h100
  have hle : ((roundHalfEven (q * 100) : ℤ) : ℚ) ≤ (k : ℚ) := by exact_mod_cast this
  linarith

/-! ## Python values and the model of `json.loads`

`json.loads` returns a dynamically-typed Python value; `PyVal` covers
the values JSON can denote.  Numbers are exact rationals.  A parsed
object keeps its key/value pairs in parse order; Python-dict override
semantics for duplicate keys are realised by `pyLookup` returning the
last binding. -/

inductive PyVal where
  | none
  | bool (b : Bool)
  | num (q : ℚ)
  | str (s : String)
  | list (xs : List PyVal)
  | dict (kvs : List (String × PyVal))

/-- `d.get(k)` on a parsed JSON object: the last binding wins, as in a
Python dict built by inserting the pairs in order. -/
def pyLookup (kvs : List (String × PyVal)) (k : String) : Option PyVal :=
  (kvs.reverse.find? (fun p => p.1 = k)).map (fun p => p.2)

/-- JSON whitespace (` `, tab, newline, carriage return). -/
def isJsonWs (c : Char) : Bool :=
  c = ' ' || c = '\t' || c = '\n' || c = '\r'

def skipWs (l : List Char) : List Char := l.dropWhile isJsonWs

def hexVal (c : Char) : Option Nat :=
  if '0' ≤ c ∧ c ≤ '9' then some (c.toNat - 48)
  else if 'a' ≤ c ∧ c ≤ 'f' then some (c.toNat - 87)
  else if 'A' ≤ c ∧ c ≤ 'F' then some (c.toNat - 55)
  else Option.none

def escChar (c : Char) : Option Char :=
  match c with
  | '"' => some '"'
  | '\\' => some '\\'
  | '/' => some '/'
  | 'b' => some (Char.ofNat 8)
  | 'f' => some (Char.ofNat 12)
  | 'n' => some '\n'
  | 'r' => some '\r'
  | 't' => some '\t'
  | _ => Option.none

/-- Parse the body of a JSON string (the opening quote already
consumed): returns the decoded characters and the remaining input.
Unescaped control characters are rejected, as by Python's strict
decoder.  A `\uXXXX` escape decodes to the single code point `XXXX`
(surrogate-pair recombination is not modelled; no claim exercises
it). -/
def parseJStr : List Char → Option (List Char × List Char)
  | [] => Option.none
  | '"' :: rest => some ([], rest)
  | '\\' :: 'u' :: a :: b :: c :: d :: rest => do
    let ha ← hexVal a
    let hb ← hexVal b
    let hc ← hexVal c
    let hd ← hexVal d
    let (s, r) ← parseJStr rest
    some (Char.ofNat (4096 * ha + 256 * hb + 16 * hc + hd) :: s, r)
  | '\\' :: e :: rest => do
    let ec ← escChar e
    let (s, r) ← parseJStr rest
    some (ec :: s, r)
  | c :: rest =>
    if c.toNat < 32 then Option.none
    else do
      let (s, r) ← parseJStr rest
      some (c :: s, r)

/-- Parse a JSON number `-?(0|[1-9][0-9]*)(\.[0-9]+)?([eE][+-]?[0-9]+)?`
from the front of the input. -/
def parseJNum (l : List Char) : Option (ℚ × List Char) :=
  let sign : ℚ × List Char := match l with
    | '-' :: r => (-1, r)
    | _ => (1, l)
  let l1 := sign.2
  let ip := l1.takeWhile Char.isDigit
  let r1 := l1.dropWhile Char.isDigit
  if ip.isEmpty then Option.none
  else if 1 < ip.length ∧ ip.headD '0' = '0' then Option.none
  else
    let fracCont : Option (ℚ × List Char) :=
      match r1 with
      | '.' :: fr =>
        let fp := fr.takeWhile Char.isDigit
        if fp.isEmpty then Option.none
        else some ((natOfDigits fp : ℚ) / (10 : ℚ) ^ fp.length,
                   fr.dropWhile Char.isDigit)
      | _ => some (0, r1)
    match fracCont with
    | Option.none => Option.none
    | some (frac, r2) =>
      let expCont : Option (ℤ × List Char) :=
        match r2 with
        | 'e' :: er | 'E' :: er =>
          let esign : ℤ × List Char := match er with
            | '-' :: r => (-1, r)
            | '+' :: r => (1, r)
            | _ => (1, er)
          let ed := esign.2.takeWhile Char.isDigit
          if ed.isEmpty then Option.none
          else some (esign.1 * (natOfDigits ed : ℤ), esign.2.dropWhile Char.isDigit)
        | _ => some (0, r2)
      match expCont with
      | Option.none => Option.none
      | some (ex, r3) =>
        some (sign.1 * ((natOfDigits ip : ℚ) + frac) * (10 : ℚ) ^ ex, r3)

/-- Parsing task: a whole value, or the tail of an array / object whose
first element has been consumed (`acc` holds the elements so far). -/
inductive JTask where
  | value
  | arrTail (acc : List PyVal)
  | objTail (acc : List (String × PyVal))

/-- Recursive JSON parser.  Fuel-based structural recursion: every
recursive call consumes at least one input character, so fuel
`length + 1` never runs out (`jsonLoads` supplies it). -/
def jrun : Nat → JTask → List Char → Option (PyVal × List Char)
  | 0, _, _ => Option.none
  | Nat.succ fuel, JTask.value, cs =>
    match skipWs cs with
    | '{' :: rest =>
      (match skipWs rest with
      | '}' :: rest2 => some (PyVal.dict [], rest2)
      | '"' :: rest2 => do
        let (k, r1) ← parseJStr rest2
        match skipWs r1 with
        | ':' :: r2 => do
          let (v, r3) ← jrun fuel JTask.value r2
          jrun fuel (JTask.objTail [(String.mk k, v)]) r3
        | _ => Option.none
      | _ => Option.none)
    | '[' :: rest =>
      (match skipWs rest with
      | ']' :: rest2 => some (PyVal.list [], rest2)
      | _ => do
        let (v, r1) ← jrun fuel JTask.value rest
        jrun fuel (JTask.arrTail [v]) r1)
    | '"' :: rest => (parseJStr rest).map (fun p => (PyVal.str (String.mk p.1), p.2))
    | 't' :: 'r' :: 'u' :: 'e' :: rest => some (PyVal.bool true, rest)
    | 'f' :: 'a' :: 'l' :: 's' :: 'e' :: rest => some (PyVal.bool false, rest)
    | 'n' :: 'u' :: 'l' :: 'l' :: rest => some (PyVal.none, rest)
    | l => (parseJNum l).map (fun p => (PyVal.num p.1, p.2))
  | Nat.succ fuel, JTask.arrTail acc, cs =>
    match skipWs cs with
    | ',' :: rest => do
      let (v, r1) ← jrun fuel JTask.value rest
      jrun fuel (JTask.arrTail (acc ++ [v])) r1
    | ']' :: rest => some (PyVal.list acc, rest)
    | _ => Option.none
  | Nat.succ fuel, JTask.objTail acc, cs =>
    match skipWs cs with
    | ',' :: rest =>
      (match skipWs rest with
      | '"' :: rest2 => do
        let (k, r1) ← parseJStr rest2
        match skipWs r1 with
        | ':' :: r2 => do
          let (v, r3) ← jrun fuel JTask.value r2
          jrun fuel (JTask.objTail (acc ++ [(String.mk k, v)])) r3
        | _ => Option.none
      | _ => Option.none)
    | '}' :: rest => some (PyVal.dict acc, rest)
    | _ => Option.none

/-- Model of Python `json.loads` on a character list: parse one JSON
value and require only whitespace to follow (Python raises "Extra
data" otherwise, modelled as `none`).  Python's non-standard acceptance
of `NaN`/`Infinity` is not modelled; no claim depends on it. -/
def jsonLoads (l : List Char) : Option PyVal :=
  match jrun (l.length + 1) JTask.value l with
  | some (v, rest) => if (skipWs rest).isEmpty then some v else Option.none
  | Option.none => Option.none

/-- The last index of `c` in `l` (Python `str.rfind`), if any. -/
def rfindIdx (c : Char) (l : List Char) : Option Nat :=
  (l.reverse.findIdx? (fun x => x = c)).map (fun i => l.length - 1 - i)

/-- `parse_llm_json` (main.py lines 59–74): empty text gives `{}`;
otherwise strip, try `json.loads` directly; on failure try the
substring from the first `{` to the last `}`; if that also fails (or
the brace indices are missing/out of order) return `{}`.  Total — the
source wraps both parses in `try`/`except`. -/
def parse_llm_json (text : String) : PyVal :=
  if text.data.isEmpty then PyVal.dict []
  else
    match jsonLoads (pyStrip text.data) with
    | some v => v
    | Option.none =>
      match (pyStrip text.data).findIdx? (fun c => c = '{'),
          rfindIdx '}' (pyStrip text.data) with
      | some s, some e =>
        if s < e then
          match jsonLoads (((pyStrip text.data).drop s).take (e + 1 - s)) with
          | some v => v
          | Option.none => PyVal.dict []
        else PyVal.dict []
      | _, _ => PyVal.dict []

/-! ## Data model (schemas.py) -/

/-- `KeywordFull` (schemas.py lines 6–10).  The same shape also models
the raw keyword dicts produced by the ideation collaborator
(google_ads.py), whose relevant keys are identical. -/
structure KeywordFull where
  keyword : String
  search_volume : Option Int := Option.none
  competition : Option String := Option.none
  cpc_range : Option String := Option.none
deriving DecidableEq

/-- `BudgetAllocations` (schemas.py lines 26–29): three plain `int`
fields. -/
structure BudgetAllocations where
  cap : Int
  bud : Int
  pmax : Int
deriving DecidableEq

/-- Input validation applied to `BudgetAllocations` (schemas.py lines
26–29): the fields are bare `int`s with no validator or bound, so
every integer triple is accepted. -/
def budgetAccepted (_ : BudgetAllocations) : Bool := true

/-- `PMaxTheme` (schemas.py lines 21–23).  `keywords` holds Python
values (`PyVal.str` for ordinary keyword strings) because the
reclassification copies whatever the parsed JSON supplied. -/
structure PMaxTheme where
  keywords : List PyVal
  total_volume : Int

/-- The four canonical PMax themes returned by
`generate_pmax_themes_llm`. -/
structure PMaxThemes where
  product : PMaxTheme
  usecase : PMaxTheme
  demographic : PMaxTheme
  seasonal : PMaxTheme

/-! ## Keyword filter and summary statistics -/

/-- The volume filter (main.py lines 181–183):
`kw.get("search_volume") and kw["search_volume"] >= 500` — an absent
volume is falsy, a zero volume is falsy, otherwise the comparison
decides. -/
def volumeKeep (kw : KeywordFull) : Bool :=
  match kw.search_volume with
  | Option.none => false
  | some v => v ≠ 0 && 500 ≤ v

def filterKeywords (ks : List KeywordFull) : List KeywordFull :=
  ks.filter volumeKeep

/-- `total_volume = sum((k.search_volume or 0) for k in keyword_objects)`
(main.py line 197). -/
def totalVolume (ks : List KeywordFull) : Int :=
  (ks.map (fun k => k.search_volume.getD 0)).sum

/-- Midpoint of a keyword's CPC range when `cpc_range` is truthy and
parses; main.py computes it identically at lines 200–207 (averaging)
and 266–272 (bid capping). -/
def midpointOf (k : KeywordFull) : Option ℚ :=
  match k.cpc_range with
  | Option.none => Option.none
  | some s => if s.data.isEmpty then Option.none else parseCpcRange s

/-- `avg_cpc` (main.py line 208). -/
def avgCpc (ks : List KeywordFull) : ℚ :=
  let mids := ks.filterMap midpointOf
  if mids.isEmpty then 0 else round2 (mids.sum / (max 1 mids.length : ℕ))

/-! ## Root-domain extraction (`clean_domain`) -/

/-- One left-to-right pass of `re.sub(r"https?://", "", u)`: at each
position the regex engine matches `https://` (greedy `s?`) or
`http://`, else moves one character on.  Fuel-based structural
recursion; fuel `length` suffices because every step consumes at least
one character. -/
def stripSchemesAux : Nat → List Char → List Char
  | 0, l => l
  | Nat.succ fuel, l =>
    match l with
    | [] => []
    | 'h' :: 't' :: 't' :: 'p' :: 's' :: ':' :: '/' :: '/' :: rest => stripSchemesAux fuel rest
    | 'h' :: 't' :: 't' :: 'p' :: ':' :: '/' :: '/' :: rest => stripSchemesAux fuel rest
    | c :: rest => c :: stripSchemesAux fuel rest

/-- `u.replace("www.", "")`: remove every non-overlapping occurrence,
scanning left to right. -/
def removeWwwAux : Nat → List Char → List Char
  | 0, l => l
  | Nat.succ fuel, l =>
    match l with
    | [] => []
    | 'w' :: 'w' :: 'w' :: '.' :: rest => removeWwwAux fuel rest
    | c :: rest => c :: removeWwwAux fuel rest

/-- `clean_domain` (main.py lines 51–56): falsy input gives `""`; else
remove every `https?://` occurrence, remove every `"www."` occurrence,
take the part before the first `.` and lower-case it. -/
def clean_domain (url : String) : String :=
  if url.data.isEmpty then ""
  else
    let u := stripSchemesAux url.data.length url.data
    let u2 := removeWwwAux u.length u
    String.mk (pyLower ((splitOnChar '.' u2).headD []))

/-- The root-domain extraction exactly as the specification words it:
strip a LEADING protocol scheme, strip a LEADING `www.` marker, take
the substring before the first dot, lower-case.  Introduced only to
compare the spec's description against `clean_domain`. -/
def cleanDomainLeading (url : String) : String :=
  if url.data.isEmpty then ""
  else
    let u :=
      if "https://".data.isPrefixOf url.data then url.data.drop 8
      else if "http://".data.isPrefixOf url.data then url.data.drop 7
      else url.data
    let u2 := if "www.".data.isPrefixOf u then u.drop 4 else u
    String.mk (pyLower ((splitOnChar '.' u2).headD []))

/-! ## Ad-group classifier -/

inductive AdGroup where
  | brand
  | category
  | competitor
  | informational
  | location
deriving DecidableEq

/-- Python `key and key in text`: a falsy (empty) key never matches. -/
def keyHit (key : String) (text : List Char) : Bool :=
  !key.data.isEmpty && strIn key.data text

/-- The location rule guard (main.py lines 241–243):
`inputs.target_locations and any(loc.strip().lower() in text for loc in
inputs.target_locations.split(","))`. -/
def locationHit (targetLocations : String) (text : List Char) : Bool :=
  !targetLocations.data.isEmpty &&
    (splitOnChar ',' targetLocations.data).any
      (fun p => strIn (pyLower (pyStrip p)) text)

/-- The ad-group rule chain of `generate_sem_plan` (main.py lines
235–248), first match wins. -/
def classifyKeyword (brandKey competitorKey targetLocations : String)
    (k : KeywordFull) : AdGroup :=
  let text := pyLower k.keyword.data
  if keyHit brandKey text then AdGroup.brand
  else if keyHit competitorKey text then AdGroup.competitor
  else if locationHit targetLocations text then AdGroup.location
  else if 3 ≤ (wsSplit text).length then AdGroup.informational
  else AdGroup.category

def adGroupName : AdGroup → String
  | AdGroup.brand => "Brand & Product Terms"
  | AdGroup.category => "Category Terms"
  | AdGroup.competitor => "Competitor Terms"
  | AdGroup.informational => "Informational Queries"
  | AdGroup.location => "Location-based Queries"

/-- The keywords appended to one group, in input order. -/
def groupKeywords (brandKey competitorKey targetLocations : String)
    (ks : List KeywordFull) (g : AdGroup) : List KeywordFull :=
  ks.filter (fun k => classifyKeyword brandKey competitorKey targetLocations k = g)

/-- `search_groups` (main.py lines 227–248): the dict literal declares
all five keys (in this order) before the loop distributes keywords. -/
def searchGroups (brandKey competitorKey targetLocations : String)
    (ks : List KeywordFull) : List (String × List KeywordFull) :=
  [AdGroup.brand, AdGroup.category, AdGroup.competitor,
    AdGroup.informational, AdGroup.location].map
    (fun g => (adGroupName g, groupKeywords brandKey competitorKey targetLocations ks g))

/-! ## PMax theme synthesis -/

/-- The deterministic fallback themes (main.py lines 82–87). -/
def fallbackThemes (keywords locations : List String) : PMaxThemes where
  product := ⟨keywords.map PyVal.str, 0⟩
  usecase := ⟨(keywords.filter (fun kw => 3 ≤ (wsSplit kw.data).length)).map PyVal.str, 0⟩
  demographic := ⟨locations.map PyVal.str, 0⟩
  seasonal := ⟨locations.map (fun loc => PyVal.str (loc ++ " seasonal trends")), 0⟩

def productTokens : List String := ["product", "protein", "whey", "vegan", "organic"]
def usecaseTokens : List String := ["use", "recovery", "weight"]
def demographicTokens : List String := ["city", "india", "delhi", "mumbai", "location"]
def seasonalTokens : List String := ["season", "summer", "winter", "holiday", "fest", "diwali", "xmas"]

inductive ThemeBucket where
  | product
  | usecase
  | demographic
  | seasonal
deriving DecidableEq

/-- `any(w in name for w in tokens)`. -/
def anyTokenIn (tokens : List String) (name : List Char) : Bool :=
  tokens.any (fun w => strIn w.data name)

/-- The name-token dispatch of the reclassification (the `if`/`elif`
chain of main.py lines 132–141); no match defaults to `product`. -/
def bucketOfName (name : List Char) : ThemeBucket :=
  if anyTokenIn productTokens name then ThemeBucket.product
  else if anyTokenIn usecaseTokens name then ThemeBucket.usecase
  else if anyTokenIn demographicTokens name then ThemeBucket.demographic
  else if anyTokenIn seasonalTokens name then ThemeBucket.seasonal
  else ThemeBucket.product

/-- `t.get("name", "").lower() if isinstance(t, dict) else ""`
(main.py line 128); the `AttributeError` raised by `.lower()` on a
present non-string name is modelled as `none`. -/
def nameOf (t : PyVal) : Option (List Char) :=
  match t with
  | PyVal.dict kvs =>
    match pyLookup kvs "name" with
    | Option.none => some []
    | some (PyVal.str s) => some (pyLower s.data)
    | some _ => Option.none
  | _ => some []

/-- `t.get("keywords", [])` with the `isinstance(kws, list)` guard
(main.py lines 129–131). -/
def kwsOf (t : PyVal) : List PyVal :=
  match t with
  | PyVal.dict kvs =>
    match pyLookup kvs "keywords" with
    | some (PyVal.list xs) => xs
    | _ => []
  | _ => []

/-- The lower-cased-name bucket a theme lands in (total view, default
name `""`); agrees with `nameOf` whenever the latter does not raise. -/
def themeBucket (t : PyVal) : ThemeBucket :=
  bucketOfName ((nameOf t).getD [])

structure Buckets where
  product : List PyVal
  usecase : List PyVal
  demographic : List PyVal
  seasonal : List PyVal

def Buckets.add (g : ThemeBucket) (kws : List PyVal) (b : Buckets) : Buckets :=
  match g with
  | ThemeBucket.product => { b with product := kws ++ b.product }
  | ThemeBucket.usecase => { b with usecase := kws ++ b.usecase }
  | ThemeBucket.demographic => { b with demographic := kws ++ b.demographic }
  | ThemeBucket.seasonal => { b with seasonal := kws ++ b.seasonal }

/-- The reclassification loop (main.py lines 126–141): walk the parsed
themes, extending one bucket per theme; a raising name extraction
aborts the request (`none`). -/
def buildBuckets : List PyVal → Option Buckets
  | [] => some ⟨[], [], [], []⟩
  | t :: ts => do
    let name ← nameOf t
    let rest ← buildBuckets ts
    some (rest.add (bucketOfName name) (kwsOf t))

/-- Declarative view of one bucket: the concatenation, in input order,
of the keyword lists of the themes dispatched to `g`. -/
def bucketContrib (g : ThemeBucket) (ts : List PyVal) : List PyVal :=
  (ts.map (fun t => if themeBucket t = g then kwsOf t else [])).flatten

/-- Python hashability: set-membership testing of a `list`/`dict` value
raises `TypeError`. -/
def pyHashable : PyVal → Bool
  | PyVal.list _ => false
  | PyVal.dict _ => false
  | _ => true

/-- Equality of hashable Python values.  `uniq` only ever compares
hashable values (an unhashable one raises before the comparison).
Python's cross-type numeric equalities such as `True == 1` are not
modelled; the pipeline only deduplicates keyword strings. -/
def scalarEq (a b : PyVal) : Bool :=
  match a, b with
  | PyVal.none, PyVal.none => true
  | PyVal.bool x, PyVal.bool y => x == y
  | PyVal.num x, PyVal.num y => x == y
  | PyVal.str x, PyVal.str y => x == y
  | _, _ => false

/-- The `uniq` helper (main.py lines 143–149): first-seen-order
de-duplication through a `seen` set; `none` models the `TypeError`
raised on an unhashable element. -/
def uniqAux (seen : List PyVal) : List PyVal → Option (List PyVal)
  | [] => some []
  | x :: xs =>
    if pyHashable x = false then Option.none
    else if seen.any (scalarEq x) then uniqAux seen xs
    else (uniqAux (x :: seen) xs).map (fun r => x :: r)

def uniqPy (l : List PyVal) : Option (List PyVal) := uniqAux [] l

/-- Reclassification plus assembly of the four canonical themes
(main.py lines 124–156).  `uniq(keywords)` in the product default
never raises — keyword texts are strings — so its value is taken with
`getD []` (`uniqAux_str_isSome` below proves the default unused). -/
def reclassifyThemes (ts : List PyVal) (keywords locations : List String) :
    Option PMaxThemes := do
  let b ← buildBuckets ts
  let p ← uniqPy b.product
  let u ← uniqPy b.usecase
  let d ← uniqPy b.demographic
  let s ← uniqPy b.seasonal
  some
    { product := ⟨if p.isEmpty then (uniqPy (keywords.map PyVal.str)).getD [] else p, 0⟩
      usecase := ⟨u, 0⟩
      demographic := ⟨if d.isEmpty then locations.map PyVal.str else d, 0⟩
      seasonal := ⟨s, 0⟩ }

/-- `themes_list = parsed.get("themes") or []` with the
`isinstance(themes_list, list)` guard (main.py lines 122 and 126); a
`.get` on a non-dict parse result raises (`none`).  A present non-list
(or falsy) value leaves the loop with nothing to do. -/
def themesListOf (parsed : PyVal) : Option (List PyVal) :=
  match parsed with
  | PyVal.dict kvs =>
    some
      (match pyLookup kvs "themes" with
      | some (PyVal.list xs) => xs
      | _ => [])
  | _ => Option.none

/-- `generate_pmax_themes_llm` (main.py lines 77–156).  The external
text-generation collaborator is abstracted by `response`: `none`
models "no collaborator configured" (`model is None`) as well as a
raising `generate_content` call — both paths return the fallback;
`some txt` models a reply whose extracted text is `txt`. -/
def generate_pmax_themes_llm (response : Option String)
    (keywords locations : List String) : Option PMaxThemes :=
  match response with
  | Option.none => some (fallbackThemes keywords locations)
  | some txt =>
    (themesListOf (parse_llm_json txt)).bind
      (fun ts => reclassifyThemes ts keywords locations)

/-! ## Bid allocator -/

def totalBudget (b : BudgetAllocations) : Int := b.cap + b.bud + b.pmax

/-- `conversion_rate = 0.02` (main.py line 260). -/
def conversionRate : ℚ := 1 / 50

/-- `target_cpc` (main.py line 262). -/
def targetCpc (tb : Int) (tv : Int) : ℚ :=
  if 0 < tv then round2 ((tb * conversionRate) / ((max 1 tv : ℤ) : ℚ)) else 0

/-- Per-keyword suggested CPC (main.py lines 264–272): cap the parsed
midpoint by the target, re-rounded; an absent or unparseable range
leaves the target unmodified. -/
def suggestedCpc (target : ℚ) (k : KeywordFull) : ℚ :=
  match midpointOf k with
  | some m => round2 (min m target)
  | Option.none => target

/-! ## Declarative view of de-duplication

`dedupFirstSeen` is the specification-side reading of "de-duplicate
preserving first-seen order"; the lemmas below show `uniq` computes it
whenever it does not raise. -/

def dedupFirstSeenAux (seen : List PyVal) : List PyVal → List PyVal
  | [] => []
  | x :: xs =>
    if seen.any (scalarEq x) then dedupFirstSeenAux seen xs
    else x :: dedupFirstSeenAux (x :: seen) xs

def dedupFirstSeen (l : List PyVal) : List PyVal := dedupFirstSeenAux [] l

/-- `res` is `orig` de-duplicated preserving first-seen order: it is
the first-seen dedup, has no duplicates, is a subsequence of `orig`
(order preserved) and keeps exactly the elements of `orig`. -/
def DedupOf (orig res : List PyVal) : Prop :=
  res = dedupFirstSeen orig ∧ res.Nodup ∧ res.Sublist orig ∧ ∀ x, x ∈ res ↔ x ∈ orig

end SemBackend

namespace SemBackend

/-! ## Supporting lemmas -/

theorem strIn_nil (l : List Char) : strIn [] l = true := by
  induction l with
  | nil => rfl
  | cons c cs ih => simp [strIn, List.isPrefixOf]

theorem scalarEq_eq_of_eq_true {x y : PyVal} (h : scalarEq x y = true) : x = y := by
  cases x <;> cases y <;> simp_all [scalarEq]

theorem scalarEq_self {x : PyVal} (hx : pyHashable x = true) : scalarEq x x = true := by
  cases x <;> simp_all [scalarEq, pyHashable]

theorem uniqAux_hashable {seen l r} (h : uniqAux seen l = some r) :
    ∀ x ∈ r, pyHashable x = true := by
  induction l generalizing seen r with
  | nil =>
    simp [uniqAux] at h
    subst h
    simp
  | cons y ys ih =>
    unfold uniqAux at h
    split at h
    · exact absurd h (by simp)
    · rename_i hy
      split at h
      · exact ih h
      · rcases Option.map_eq_some'.mp h with ⟨r', hr', rfl⟩
        intro x hx
        rcases List.mem_cons.mp hx with rfl | hx
        · simpa using hy
        · exact ih hr' x hx

theorem uniqAux_eq_dedup {seen l r} (h : uniqAux seen l = some r) :
    r = dedupFirstSeenAux seen l := by
  induction l generalizing seen r with
  | nil =>
    simp [uniqAux] at h
    subst h
    rfl
  | cons y ys ih =>
    unfold uniqAux at h
    unfold dedupFirstSeenAux
    split at h
    · exact absurd h (by simp)
    · split at h
      · rename_i hseen
        rw [if_pos hseen]
        exact ih h
      · rename_i hseen
        rw [if_neg hseen]
        rcases Option.map_eq_some'.mp h with ⟨r', hr', rfl⟩
        exact congrArg (y :: ·) (ih hr')

theorem uniqAux_mem {seen l r} (h : uniqAux seen l = some r) :
    ∀ x, x ∈ r ↔ x ∈ l ∧ seen.any (scalarEq x) = false := by
  induction l generalizing seen r with
  | nil =>
    simp [uniqAux] at h
    subst h
    simp
  | cons y ys ih =>
    unfold uniqAux at h
    split at h
    · exact absurd h (by simp)
    · split at h
      · rename_i hseen
        intro x
        rw [ih h x]
        constructor
        · rintro ⟨hx, hs⟩
          exact ⟨List.mem_cons_of_mem _ hx, hs⟩
        · rintro ⟨hx, hs⟩
          rcases List.mem_cons.mp hx with rfl | hx
          · rw [hs] at hseen
            exact Bool.noConfusion hseen
          · exact ⟨hx, hs⟩
      · rename_i hseen
        rcases Option.map_eq_some'.mp h with ⟨r', hr', rfl⟩
        intro x
        rw [List.mem_cons, ih hr' x]
        constructor
        · rintro (rfl | ⟨hx, hs⟩)
          · refine ⟨List.mem_cons_self _ _, ?_⟩
            simpa using hseen
          · constructor
            · exact List.mem_cons_of_mem _ hx
            · simp only [List.any_cons, Bool.or_eq_false_iff] at hs
              exact hs.2
        · rintro ⟨hx, hs⟩
          rcases List.mem_cons.mp hx with rfl | hx
          · exact Or.inl rfl
          · by_cases hxy : scalarEq x y = true
            · exact Or.inl (scalarEq_eq_of_eq_true hxy)
            · refine Or.inr ⟨hx, ?_⟩
              simp only [List.any_cons, Bool.or_eq_false_iff]
              exact ⟨by simpa using hxy, hs⟩

theorem uniqAux_sublist {seen l r} (h : uniqAux seen l = some r) :
    r.Sublist l := by
  induction l generalizing seen r with
  | nil =>
    simp [uniqAux] at h
    subst h
    simp
  | cons y ys ih =>
    unfold uniqAux at h
    split at h
    · exact absurd h (by simp)
    · split at h
      · exact (ih h).cons _
      · rcases Option.map_eq_some'.mp h with ⟨r', hr', rfl⟩
        exact (ih hr').cons₂ _

theorem uniqAux_nodup {seen l r} (h : uniqAux seen l = some r) :
    r.Nodup := by
  induction l generalizing seen r with
  | nil =>
    simp [uniqAux] at h
    subst h
    simp
  | cons y ys ih =>
    unfold uniqAux at h
    split at h
    · exact absurd h (by simp)
    · rename_i hy
      split at h
      · exact ih h
      · rcases Option.map_eq_some'.mp h with ⟨r', hr', rfl⟩
        refine List.nodup_cons.mpr ⟨?_, ih hr'⟩
        intro hmem
        have := (uniqAux_mem hr' y).mp hmem
        have hself : (y :: seen).any (scalarEq y) = true := by
          simp [scalarEq_self (by simpa using hy)]
        rw [this.2] at hself
        exact Bool.noConfusion hself

theorem uniqPy_dedupOf {l r} (h : uniqPy l = some r) : DedupOf l r := by
  refine ⟨uniqAux_eq_dedup h, uniqAux_nodup h, uniqAux_sublist h, ?_⟩
  intro x
  rw [uniqAux_mem h x]
  simp

theorem uniqAux_isSome_of_hashable {seen l} (h : ∀ x ∈ l, pyHashable x = true) :
    ∃ r, uniqAux seen l = some r := by
  induction l generalizing seen with
  | nil => exact ⟨[], rfl⟩
  | cons y ys ih =>
    have hy : pyHashable y = true := h y (List.mem_cons_self _ _)
    have hrest : ∀ x ∈ ys, pyHashable x = true :=
      fun x hx => h x (List.mem_cons_of_mem _ hx)
    unfold uniqAux
    rw [if_neg (by simp [hy])]
    by_cases hseen : seen.any (scalarEq y) = true
    · rw [if_pos hseen]
      exact ih hrest
    · rw [if_neg hseen]
      rcases @ih (y :: seen) hrest with ⟨r, hr⟩
      exact ⟨y :: r, by simp [hr]⟩

theorem uniqPy_str (l : List String) :
    uniqPy (l.map PyVal.str) = some (dedupFirstSeen (l.map PyVal.str)) := by
  rcases @uniqAux_isSome_of_hashable [] (l.map PyVal.str)
      (by intro x hx; rcases List.mem_map.mp hx with ⟨s, _, rfl⟩; rfl) with ⟨r, hr⟩
  unfold uniqPy dedupFirstSeen
  rw [hr]
  exact congrArg some (uniqAux_eq_dedup hr)

theorem buildBuckets_names {ts : List PyVal} {b : Buckets}
    (h : buildBuckets ts = some b) : ∀ t ∈ ts, (nameOf t).isSome := by
  induction ts generalizing b with
  | nil => simp
  | cons t ts ih =>
    unfold buildBuckets at h
    cases hn : nameOf t with
    | none =>
      rw [hn] at h
      exact absurd h (by simp)
    | some name =>
      rw [hn] at h
      cases hb : buildBuckets ts with
      | none =>
        rw [hb] at h
        exact absurd h (by simp)
      | some rest =>
        intro u hu
        rcases List.mem_cons.mp hu with rfl | hu
        · simp [hn]
        · exact ih hb u hu

theorem buildBuckets_eq_contrib {ts : List PyVal} {b : Buckets}
    (h : buildBuckets ts = some b) :
    b = ⟨bucketContrib ThemeBucket.product ts, bucketContrib ThemeBucket.usecase ts,
         bucketContrib ThemeBucket.demographic ts, bucketContrib ThemeBucket.seasonal ts⟩ := by
  induction ts generalizing b with
  | nil =>
    simp [buildBuckets] at h
    subst h
    rfl
  | cons t ts ih =>
    unfold buildBuckets at h
    cases hn : nameOf t with
    | none =>
      rw [hn] at h
      exact absurd h (by simp)
    | some name =>
      rw [hn] at h
      cases hb : buildBuckets ts with
      | none =>
        rw [hb] at h
        exact absurd h (by simp)
      | some rest =>
        rw [hb] at h
        simp only [Option.pure_def, Option.bind_eq_bind, Option.some_bind,
          Option.some.injEq] at h
        subst h
        obtain rfl := ih hb
        have htb : themeBucket t = bucketOfName name := by
          simp [themeBucket, hn]
        cases hg : bucketOfName name <;>
          simp [Buckets.add, bucketContrib, htb, hg]

theorem classifyKeyword_cases (bk ck locs : String) (k : KeywordFull) :
    (classifyKeyword bk ck locs k = AdGroup.brand ↔
      keyHit bk (pyLower k.keyword.data) = true) ∧
    (classifyKeyword bk ck locs k = AdGroup.competitor ↔
      keyHit bk (pyLower k.keyword.data) = false ∧
      keyHit ck (pyLower k.keyword.data) = true) ∧
    (classifyKeyword bk ck locs k = AdGroup.location ↔
      keyHit bk (pyLower k.keyword.data) = false ∧
      keyHit ck (pyLower k.keyword.data) = false ∧
      locationHit locs (pyLower k.keyword.data) = true) ∧
    (classifyKeyword bk ck locs k = AdGroup.informational ↔
      keyHit bk (pyLower k.keyword.data) = false ∧
      keyHit ck (pyLower k.keyword.data) = false ∧
      locationHit locs (pyLower k.keyword.data) = false ∧
      3 ≤ (wsSplit (pyLower k.keyword.data)).length) ∧
    (classifyKeyword bk ck locs k = AdGroup.category ↔
      keyHit bk (pyLower k.keyword.data) = false ∧
      keyHit ck (pyLower k.keyword.data) = false ∧
      locationHit locs (pyLower k.keyword.data) = false ∧
      ¬ 3 ≤ (wsSplit (pyLower k.keyword.data)).length) := by
  cases h1 : keyHit bk (pyLower k.keyword.data) <;>
    cases h2 : keyHit ck (pyLower k.keyword.data) <;>
      cases h3 : locationHit locs (pyLower k.keyword.data) <;>
        by_cases h4 : 3 ≤ (wsSplit (pyLower k.keyword.data)).length <;>
          simp [classifyKeyword, h1, h2, h3, h4]

theorem mem_groupKeywords {bk ck locs : String} {ks : List KeywordFull}
    {g : AdGroup} {k : KeywordFull} :
    k ∈ groupKeywords bk ck locs ks g ↔
      k ∈ ks ∧ classifyKeyword bk ck locs k = g := by
  simp [groupKeywords]

theorem parseUnsignedDecimal_nonneg {l : List Char} {q : ℚ}
    (h : parseUnsignedDecimal l = some q) : 0 ≤ q := by
  unfold parseUnsignedDecimal at h
  split at h
  · split at h
    · exact absurd h (by simp)
    · simp only [Option.some.injEq] at h
      subst h
      positivity
  · split at h
    · simp only [Option.some.injEq] at h
      subst h
      positivity
    · exact absurd h (by simp)
  · exact absurd h (by simp)

theorem parseDecimal_nonneg {l : List Char} {q : ℚ}
    (h : parseDecimal l = some q) : 0 ≤ q :=
  parseUnsignedDecimal_nonneg h

theorem midpointOf_nonneg {k : KeywordFull} {m : ℚ}
    (h : midpointOf k = some m) : 0 ≤ m := by
  unfold midpointOf at h
  split at h
  · exact absurd h (by simp)
  · split at h
    · exact absurd h (by simp)
    · unfold parseCpcRange at h
      split at h
      · rename_i a b heq
        cases ha : pyFloatOfPart a with
        | none => rw [ha] at h; exact absurd h (by simp)
        | some lo =>
          cases hb : pyFloatOfPart b with
          | none => rw [ha, hb] at h; exact absurd h (by simp)
          | some hi =>
            rw [ha, hb] at h
            simp only [Option.some.injEq] at h
            subst h
            have h1 := @parseDecimal_nonneg ((pyStrip a).filter (fun c => c ≠ '$')) _
              (by simpa [pyFloatOfPart] using ha)
            have h2 := @parseDecimal_nonneg ((pyStrip b).filter (fun c => c ≠ '$')) _
              (by simpa [pyFloatOfPart] using hb)
            linarith
      · exact absurd h (by simp)

theorem targetCpc_nonneg {tb tv : Int} (h : 0 ≤ tb) : 0 ≤ targetCpc tb tv := by
  unfold targetCpc
  split
  · apply round2_nonneg
    apply div_nonneg
    · have h1 : (0 : ℚ) ≤ (tb : ℚ) := by exact_mod_cast h
      have h2 : (0 : ℚ) ≤ conversionRate := by norm_num [conversionRate]
      positivity
    · have h3 : (1 : ℤ) ≤ max 1 tv := le_max_left _ _
      have : ((max 1 tv : ℤ) : ℚ) ≥ 1 := by exact_mod_cast h3
      linarith
  · exact le_refl 0

theorem targetCpc_two_decimals (tb tv : Int) :
    ∃ n : ℤ, targetCpc tb tv = (n : ℚ) / 100 := by
  unfold targetCpc
  split
  · exact ⟨roundHalfEven ((tb * conversionRate) / ((max 1 tv : ℤ) : ℚ) * 100), rfl⟩
  · exact ⟨0, by norm_num⟩

theorem suggestedCpc_le (tb tv : Int) (k : KeywordFull) :
    suggestedCpc (targetCpc tb tv) k ≤ targetCpc tb tv := by
  unfold suggestedCpc
  cases hm : midpointOf k with
  | none => exact le_refl _
  | some m =>
    rcases targetCpc_two_decimals tb tv with ⟨n, hn⟩
    exact round2_le_of_le hn (min_le_right _ _)

theorem suggestedCpc_nonneg {tb tv : Int} (h : 0 ≤ tb) (k : KeywordFull) :
    0 ≤ suggestedCpc (targetCpc tb tv) k := by
  unfold suggestedCpc
  cases hm : midpointOf k with
  | none => exact targetCpc_nonneg h
  | some m =>
    exact round2_nonneg (le_min (midpointOf_nonneg hm) (targetCpc_nonneg h))

/-! ## Claim theorems -/

/-- C1: the filtering step of `generate_sem_plan` keeps exactly the
records whose `search_volume` is present and at least 500 — every
survivor satisfies the bound, records with an absent or sub-threshold
volume never appear, and the input order of survivors is preserved
(the filtered list is a subsequence of the input). -/
theorem c1_volume_filter (ks : List KeywordFull) :
    (∀ k : KeywordFull, k ∈ filterKeywords ks ↔
      k ∈ ks ∧ ∃ v, k.search_volume = some v ∧ 500 ≤ v) ∧
    (filterKeywords ks).Sublist ks := by
  constructor
  · intro k
    rw [filterKeywords, List.mem_filter]
    have hk : volumeKeep k = true ↔ ∃ v, k.search_volume = some v ∧ 500 ≤ v := by
      unfold volumeKeep
      cases hv : k.search_volume with
      | none => simp
      | some v =>
        simp only [ne_eq, Bool.and_eq_true, decide_eq_true_eq, Option.some.injEq]
        constructor
        · rintro ⟨h0, h5⟩
          exact ⟨v, rfl, h5⟩
        · rintro ⟨w, rfl, h5⟩
          exact ⟨by omega, h5⟩
    rw [hk]
  · exact List.filter_sublist _

/-- C2: the ad-group classifier assigns every keyword to exactly one of
the five fixed groups by the first-match-wins rule chain (brand token,
then competitor token, then location token, then three-or-more-token
informational, else category); all five group names are present as
keys, and the groups partition the keyword list. -/
theorem c2_ad_group_partition (bk ck locs : String) (ks : List KeywordFull) :
    ((searchGroups bk ck locs ks).map Prod.fst =
      ["Brand & Product Terms", "Category Terms", "Competitor Terms",
        "Informational Queries", "Location-based Queries"]) ∧
    (∀ k ∈ ks, ∃! g : AdGroup, k ∈ groupKeywords bk ck locs ks g) ∧
    (∀ g : AdGroup, ∀ k ∈ groupKeywords bk ck locs ks g,
      k ∈ ks ∧ classifyKeyword bk ck locs k = g) ∧
    (∀ k : KeywordFull,
      (classifyKeyword bk ck locs k = AdGroup.brand ↔
        keyHit bk (pyLower k.keyword.data) = true) ∧
      (classifyKeyword bk ck locs k = AdGroup.competitor ↔
        keyHit bk (pyLower k.keyword.data) = false ∧
        keyHit ck (pyLower k.keyword.data) = true) ∧
      (classifyKeyword bk ck locs k = AdGroup.location ↔
        keyHit bk (pyLower k.keyword.data) = false ∧
        keyHit ck (pyLower k.keyword.data) = false ∧
        locationHit locs (pyLower k.keyword.data) = true) ∧
      (classifyKeyword bk ck locs k = AdGroup.informational ↔
        keyHit bk (pyLower k.keyword.data) = false ∧
        keyHit ck (pyLower k.keyword.data) = false ∧
        locationHit locs (pyLower k.keyword.data) = false ∧
        3 ≤ (wsSplit (pyLower k.keyword.data)).length) ∧
      (classifyKeyword bk ck locs k = AdGroup.category ↔
        keyHit bk (pyLower k.keyword.data) = false ∧
        keyHit ck (pyLower k.keyword.data) = false ∧
        locationHit locs (pyLower k.keyword.data) = false ∧
        ¬ 3 ≤ (wsSplit (pyLower k.keyword.data)).length)) := by
  refine ⟨rfl, ?_, ?_, fun k => classifyKeyword_cases bk ck locs k⟩
  · intro k hk
    refine ⟨classifyKeyword bk ck locs k, mem_groupKeywords.mpr ⟨hk, rfl⟩, ?_⟩
    intro g hg
    exact ((mem_groupKeywords.mp hg).2).symm
  · intro g k hkg
    exact mem_groupKeywords.mp hkg

theorem c2_ad_group_partition_witness :
    ((searchGroups "acme" "" "" [⟨"gym", some 600, Option.none, Option.none⟩]).map Prod.fst =
      ["Brand & Product Terms", "Category Terms", "Competitor Terms",
        "Informational Queries", "Location-based Queries"]) ∧
    ∃! g : AdGroup,
      (⟨"gym", some 600, Option.none, Option.none⟩ : KeywordFull) ∈
        groupKeywords "acme" "" "" [⟨"gym", some 600, Option.none, Option.none⟩] g :=
  ⟨(c2_ad_group_partition "acme" "" "" [⟨"gym", some 600, Option.none, Option.none⟩]).1,
    (c2_ad_group_partition "acme" "" "" [⟨"gym", some 600, Option.none, Option.none⟩]).2.1
      ⟨"gym", some 600, Option.none, Option.none⟩ (by simp)⟩

/-- C3: with a non-negative total budget (the data-model invariant),
`total_budget = cap + bud + pmax`; the target CPC is 0 when the total
volume is 0 and otherwise `round((total_budget * 0.02) / max(1,
total_volume), 2)`; a keyword with a parsed midpoint gets
`round(min(midpoint, target), 2)` and otherwise the target unmodified;
and every suggested CPC lies in `[0, target]`. -/
theorem c3_bid_allocator (b : BudgetAllocations) (tv : Int) (k : KeywordFull)
    (hb : 0 ≤ totalBudget b) :
    totalBudget b = b.cap + b.bud + b.pmax ∧
    (tv = 0 → targetCpc (totalBudget b) tv = 0) ∧
    (0 < tv → targetCpc (totalBudget b) tv =
      round2 (((totalBudget b : ℚ) * conversionRate) / ((max 1 tv : ℤ) : ℚ))) ∧
    (∀ m, midpointOf k = some m →
      suggestedCpc (targetCpc (totalBudget b) tv) k =
        round2 (min m (targetCpc (totalBudget b) tv))) ∧
    (midpointOf k = Option.none →
      suggestedCpc (targetCpc (totalBudget b) tv) k = targetCpc (totalBudget b) tv) ∧
    0 ≤ suggestedCpc (targetCpc (totalBudget b) tv) k ∧
    suggestedCpc (targetCpc (totalBudget b) tv) k ≤ targetCpc (totalBudget b) tv := by
  refine ⟨rfl, ?_, ?_, ?_, ?_, suggestedCpc_nonneg hb k, suggestedCpc_le _ _ k⟩
  · intro h0
    simp [targetCpc, h0]
  · intro h0
    simp [targetCpc, h0]
  · intro m hm
    simp [suggestedCpc, hm]
  · intro hm
    simp [suggestedCpc, hm]

theorem c3_bid_allocator_witness :
    (0 : Int) ≤ totalBudget ⟨100, 200, 300⟩ ∧
    0 ≤ suggestedCpc (targetCpc (totalBudget ⟨100, 200, 300⟩) 1000)
        ⟨"whey protein", some 1000, some "LOW", some "$1.00 - $2.00"⟩ ∧
    suggestedCpc (targetCpc (totalBudget ⟨100, 200, 300⟩) 1000)
        ⟨"whey protein", some 1000, some "LOW", some "$1.00 - $2.00"⟩ ≤
      targetCpc (totalBudget ⟨100, 200, 300⟩) 1000 :=
  ⟨by decide,
    (c3_bid_allocator ⟨100, 200, 300⟩ 1000
      ⟨"whey protein", some 1000, some "LOW", some "$1.00 - $2.00"⟩
      (by decide)).2.2.2.2.2.1,
    (c3_bid_allocator ⟨100, 200, 300⟩ 1000
      ⟨"whey protein", some 1000, some "LOW", some "$1.00 - $2.00"⟩
      (by decide)).2.2.2.2.2.2⟩

/-- C9 (code bug): the schema models all three budget components as
plain `int`s with no non-negativity validator, so an allocation with a
negative component is accepted (the claim says it should be rejected
before the core runs); `total_budget` is nonetheless always
`cap + bud + pmax`. -/
theorem c9_budget_validation :
    budgetAccepted ⟨-1, 0, 0⟩ = true ∧
    totalBudget ⟨-1, 0, 0⟩ = -1 ∧
    ∀ b : BudgetAllocations,
      budgetAccepted b = true ∧ totalBudget b = b.cap + b.bud + b.pmax :=
  ⟨rfl, by decide, fun b => ⟨rfl, rfl⟩⟩

/-- C8 (counterexample): `clean_domain` does not strip only a LEADING
`www.` marker — on `"awww.x.com"` it removes the interior `"www."`
occurrence and yields `"ax"`, while the claim's leading-only
description yields `"awww"`. -/
theorem c8_clean_domain_counterexample :
    clean_domain "awww.x.com" = "ax" ∧
    cleanDomainLeading "awww.x.com" = "awww" ∧
    clean_domain "awww.x.com" ≠ cleanDomainLeading "awww.x.com" := by
  refine ⟨rfl, rfl, ?_⟩
  intro h
  rw [show clean_domain "awww.x.com" = "ax" from rfl,
    show cleanDomainLeading "awww.x.com" = "awww" from rfl] at h
  exact absurd h (by decide)

/-- C8 (amended): `clean_domain` removes EVERY occurrence of
`http://`/`https://` and of `"www."` (not only leading ones), then
takes the substring before the first dot and lower-cases it;
`"https://www.Acme.com/page"` yields `"acme"`, the empty input yields
`""`, `"awww.x.com"` yields `"ax"`, and an empty brand or competitor
token never matches any keyword in the classifier. -/
theorem c8_clean_domain_amended (bk ck locs : String) (k : KeywordFull) :
    clean_domain "https://www.Acme.com/page" = "acme" ∧
    clean_domain "" = "" ∧
    clean_domain "awww.x.com" = "ax" ∧
    classifyKeyword "" ck locs k ≠ AdGroup.brand ∧
    classifyKeyword bk "" locs k ≠ AdGroup.competitor := by
  refine ⟨rfl, rfl, rfl, ?_, ?_⟩
  · intro h
    have hb := ((classifyKeyword_cases "" ck locs k).1).mp h
    simp [keyHit] at hb
  · intro h
    have hc := ((classifyKeyword_cases bk "" locs k).2.1).mp h
    simp [keyHit] at hc

theorem c8_clean_domain_amended_witness :
    clean_domain "https://www.Acme.com/page" = "acme" ∧
    clean_domain "" = "" ∧
    clean_domain "awww.x.com" = "ax" ∧
    classifyKeyword "" "" "" ⟨"gym", some 1000, Option.none, Option.none⟩ ≠
      AdGroup.brand ∧
    classifyKeyword "" "" "" ⟨"gym", some 1000, Option.none, Option.none⟩ ≠
      AdGroup.competitor :=
  c8_clean_domain_amended "" "" "" ⟨"gym", some 1000, Option.none, Option.none⟩

/-- C10 (counterexample): for `target_locations = ""` the comma-split
yields the empty entry (which strips to empty), yet the falsy-string
guard skips the location rule entirely, so a keyword can still land in
Category Terms — contradicting the claim that Category is necessarily
empty whenever some entry strips to empty. -/
theorem c10_empty_locations_counterexample :
    (∃ p ∈ splitOnChar ',' ("" : String).data, pyStrip p = []) ∧
    groupKeywords "" "" "" [⟨"gym", some 1000, Option.none, Option.none⟩]
        AdGroup.category =
      [⟨"gym", some 1000, Option.none, Option.none⟩] ∧
    ([⟨"gym", some 1000, Option.none, Option.none⟩] : List KeywordFull) ≠ [] := by
  refine ⟨⟨[], by simp [splitOnChar], rfl⟩, rfl, by simp⟩

/-- C10 (amended): if `target_locations` is NONEMPTY and splitting it
on commas yields an entry that is empty after stripping, that empty
token is a substring of every keyword text, so every keyword not
already matched as a brand or competitor term is classified into
Location-based Queries, and the Informational Queries and Category
Terms groups are empty. -/
theorem c10_empty_location_token (bk ck locs : String) (ks : List KeywordFull)
    (p : List Char) (hne : locs.data ≠ []) (hp : p ∈ splitOnChar ',' locs.data)
    (hstrip : pyStrip p = []) :
    (∀ k ∈ ks, classifyKeyword bk ck locs k = AdGroup.brand ∨
      classifyKeyword bk ck locs k = AdGroup.competitor ∨
      classifyKeyword bk ck locs k = AdGroup.location) ∧
    groupKeywords bk ck locs ks AdGroup.informational = [] ∧
    groupKeywords bk ck locs ks AdGroup.category = [] := by
  have hloc : ∀ text : List Char, locationHit locs text = true := by
    intro text
    unfold locationHit
    refine Bool.and_eq_true _ _ |>.mpr ⟨?_, ?_⟩
    · simpa using hne
    · refine List.any_eq_true.mpr ⟨p, hp, ?_⟩
      rw [hstrip]
      exact strIn_nil text
  have hcls : ∀ k : KeywordFull, classifyKeyword bk ck locs k = AdGroup.brand ∨
      classifyKeyword bk ck locs k = AdGroup.competitor ∨
      classifyKeyword bk ck locs k = AdGroup.location := by
    intro k
    cases h1 : keyHit bk (pyLower k.keyword.data) with
    | true =>
      exact Or.inl (((classifyKeyword_cases bk ck locs k).1).mpr h1)
    | false =>
      cases h2 : keyHit ck (pyLower k.keyword.data) with
      | true =>
        exact Or.inr (Or.inl (((classifyKeyword_cases bk ck locs k).2.1).mpr ⟨h1, h2⟩))
      | false =>
        exact Or.inr (Or.inr (((classifyKeyword_cases bk ck locs k).2.2.1).mpr
          ⟨h1, h2, hloc _⟩))
  refine ⟨fun k _ => hcls k, ?_, ?_⟩
  · refine List.filter_eq_nil_iff.mpr ?_
    intro k _
    rcases hcls k with h | h | h <;> simp [h]
  · refine List.filter_eq_nil_iff.mpr ?_
    intro k _
    rcases hcls k with h | h | h <;> simp [h]

/-- C4 (counterexample): when the product bucket is empty the code
falls back to `uniq(keywords)` — the DE-DUPLICATED original keyword
list — not to the full original keyword list as the claim states: with
zero parsed themes and keywords `["a", "a"]` the product theme holds
`["a"]`. -/
theorem c4_product_default_counterexample :
    (reclassifyThemes [] ["a", "a"] []).map (fun r => r.product.keywords) =
      some [PyVal.str "a"] ∧
    [PyVal.str "a"] ≠ (["a", "a"].map PyVal.str) := by
  refine ⟨rfl, ?_⟩
  simp

/-- C4 (amended): reclassification dispatches each parsed theme by its
lower-cased name in priority order (product, usecase, demographic,
seasonal tokens, else product), appends its list-typed keywords to the
bucket, de-duplicates each bucket preserving first-seen order, and the
canonical themes are the de-duplicated buckets with product defaulting
to the DE-DUPLICATED original keyword list when empty, demographic
defaulting to the location list when empty, and `total_volume = 0`
everywhere. -/
theorem c4_reclassification (ts : List PyVal) (kws locs : List String)
    (r : PMaxThemes) (h : reclassifyThemes ts kws locs = some r) :
    (∀ t ∈ ts, (nameOf t).isSome) ∧
    ∃ p u d s,
      uniqPy (bucketContrib ThemeBucket.product ts) = some p ∧
      uniqPy (bucketContrib ThemeBucket.usecase ts) = some u ∧
      uniqPy (bucketContrib ThemeBucket.demographic ts) = some d ∧
      uniqPy (bucketContrib ThemeBucket.seasonal ts) = some s ∧
      DedupOf (bucketContrib ThemeBucket.product ts) p ∧
      DedupOf (bucketContrib ThemeBucket.usecase ts) u ∧
      DedupOf (bucketContrib ThemeBucket.demographic ts) d ∧
      DedupOf (bucketContrib ThemeBucket.seasonal ts) s ∧
      r.product = ⟨if p.isEmpty then dedupFirstSeen (kws.map PyVal.str) else p, 0⟩ ∧
      r.usecase = ⟨u, 0⟩ ∧
      r.demographic = ⟨if d.isEmpty then locs.map PyVal.str else d, 0⟩ ∧
      r.seasonal = ⟨s, 0⟩ := by
  unfold reclassifyThemes at h
  cases hb : buildBuckets ts with
  | none =>
    rw [hb] at h
    exact absurd h (by simp)
  | some b =>
    rw [hb] at h
    obtain rfl := buildBuckets_eq_contrib hb
    simp only [Option.pure_def, Option.bind_eq_bind, Option.some_bind] at h
    cases hp : uniqPy (bucketContrib ThemeBucket.product ts) with
    | none =>
      rw [hp] at h
      exact absurd h (by simp)
    | some p =>
      rw [hp] at h
      simp only [Option.some_bind] at h
      cases hu : uniqPy (bucketContrib ThemeBucket.usecase ts) with
      | none =>
        rw [hu] at h
        exact absurd h (by simp)
      | some u =>
        rw [hu] at h
        simp only [Option.some_bind] at h
        cases hd : uniqPy (bucketContrib ThemeBucket.demographic ts) with
        | none =>
          rw [hd] at h
          exact absurd h (by simp)
        | some d =>
          rw [hd] at h
          simp only [Option.some_bind] at h
          cases hs : uniqPy (bucketContrib ThemeBucket.seasonal ts) with
          | none =>
            rw [hs] at h
            exact absurd h (by simp)
          | some s =>
            rw [hs] at h
            simp only [Option.some_bind, Option.some.injEq] at h
            subst h
            refine ⟨buildBuckets_names hb, p, u, d, s, rfl, rfl, rfl, rfl,
              uniqPy_dedupOf hp, uniqPy_dedupOf hu, uniqPy_dedupOf hd,
              uniqPy_dedupOf hs, ?_, rfl, rfl, rfl⟩
            rw [show (uniqPy (kws.map PyVal.str)).getD [] =
                dedupFirstSeen (kws.map PyVal.str) from by rw [uniqPy_str kws]; rfl]

theorem c4_reclassification_witness :
    reclassifyThemes
      [PyVal.dict [("name", PyVal.str "Product stuff"),
        ("keywords", PyVal.list [PyVal.str "x", PyVal.str "x"])]] ["a"] ["L"] =
      some ⟨⟨[PyVal.str "x"], 0⟩, ⟨[], 0⟩, ⟨[PyVal.str "L"], 0⟩, ⟨[], 0⟩⟩ ∧
    (nameOf (PyVal.dict [("name", PyVal.str "Product stuff"),
      ("keywords", PyVal.list [PyVal.str "x", PyVal.str "x"])])).isSome := by
  refine ⟨rfl, ?_⟩
  exact (c4_reclassification
    [PyVal.dict [("name", PyVal.str "Product stuff"),
      ("keywords", PyVal.list [PyVal.str "x", PyVal.str "x"])]]
    ["a"] ["L"] ⟨⟨[PyVal.str "x"], 0⟩, ⟨[], 0⟩, ⟨[PyVal.str "L"], 0⟩, ⟨[], 0⟩⟩ rfl).1
    _ (List.mem_singleton.mpr rfl)

/-- C5: with no text-generation collaborator (or a failed call) the
theme synthesizer returns exactly the fallback: product = all
keywords in input order with duplicates, usecase = the keywords with
three or more whitespace tokens, demographic = the location list,
seasonal = one `"<location> seasonal trends"` entry per location, all
with `total_volume = 0`. -/
theorem c5_fallback_themes (kws locs : List String) :
    generate_pmax_themes_llm Option.none kws locs = some (fallbackThemes kws locs) ∧
    (fallbackThemes kws locs).product.keywords = kws.map PyVal.str ∧
    (fallbackThemes kws locs).usecase.keywords =
      (kws.filter (fun kw => 3 ≤ (wsSplit kw.data).length)).map PyVal.str ∧
    (fallbackThemes kws locs).demographic.keywords = locs.map PyVal.str ∧
    (fallbackThemes kws locs).seasonal.keywords =
      locs.map (fun loc => PyVal.str (loc ++ " seasonal trends")) ∧
    (fallbackThemes kws locs).product.total_volume = 0 ∧
    (fallbackThemes kws locs).usecase.total_volume = 0 ∧
    (fallbackThemes kws locs).demographic.total_volume = 0 ∧
    (fallbackThemes kws locs).seasonal.total_volume = 0 ∧
    (∀ kw : String, PyVal.str kw ∈ (fallbackThemes kws locs).usecase.keywords ↔
      kw ∈ kws ∧ 3 ≤ (wsSplit kw.data).length) := by
  refine ⟨rfl, rfl, rfl, rfl, rfl, rfl, rfl, rfl, rfl, ?_⟩
  intro kw
  constructor
  · intro hmem
    rcases List.mem_map.mp hmem with ⟨k', hk', heq⟩
    obtain rfl : k' = kw := PyVal.str.inj heq
    have := List.mem_filter.mp hk'
    exact ⟨this.1, by simpa using this.2⟩
  · rintro ⟨hkw, hlen⟩
    exact List.mem_map.mpr ⟨kw, List.mem_filter.mpr ⟨hkw, by simpa⟩, rfl⟩

/-- C6: the JSON recovery never raises and proceeds in stages — a
direct parse of the stripped text wins; otherwise the substring from
the first `{` to the last `}` is tried; if both fail the result is the
empty object and theme synthesis continues with zero source themes
(reclassification over the empty list), which differs from the
deterministic fallback. -/
theorem c6_json_recovery (text : String) (kws locs : List String) :
    (∀ v, jsonLoads (pyStrip text.data) = some v → parse_llm_json text = v) ∧
    (jsonLoads (pyStrip text.data) = Option.none →
      ∀ s e v, (pyStrip text.data).findIdx? (fun c => c = '{') = some s →
        rfindIdx '}' (pyStrip text.data) = some e → s < e →
        jsonLoads (((pyStrip text.data).drop s).take (e + 1 - s)) = some v →
        parse_llm_json text = v) ∧
    (jsonLoads (pyStrip text.data) = Option.none →
      (∀ s e, (pyStrip text.data).findIdx? (fun c => c = '{') = some s →
        rfindIdx '}' (pyStrip text.data) = some e → s < e →
        jsonLoads (((pyStrip text.data).drop s).take (e + 1 - s)) = Option.none) →
      parse_llm_json text = PyVal.dict [] ∧
      generate_pmax_themes_llm (some text) kws locs = reclassifyThemes [] kws locs) ∧
    generate_pmax_themes_llm (some "x") ["a", "a"] ["d"] ≠
      some (fallbackThemes ["a", "a"] ["d"]) := by
  have hempty : text.data.isEmpty = true → pyStrip text.data = [] := by
    intro hemp
    rw [List.isEmpty_eq_true.mp hemp]
    rfl
  refine ⟨?_, ?_, ?_, ?_⟩
  · intro v hv
    unfold parse_llm_json
    by_cases hemp : text.data.isEmpty = true
    · rw [hempty hemp] at hv
      rw [show jsonLoads ([] : List Char) = Option.none from rfl] at hv
      exact Option.noConfusion hv
    · rw [if_neg hemp, hv]
  · intro hnone s e v hs he hlt hv
    unfold parse_llm_json
    by_cases hemp : text.data.isEmpty = true
    · rw [hempty hemp] at hs
      rw [show (([] : List Char).findIdx? (fun c => c = '{')) = Option.none from rfl] at hs
      exact Option.noConfusion hs
    · rw [if_neg hemp, hnone, hs, he]
      dsimp only
      rw [if_pos hlt, hv]
  · intro hnone hfail
    have hp : parse_llm_json text = PyVal.dict [] := by
      unfold parse_llm_json
      by_cases hemp : text.data.isEmpty = true
      · rw [if_pos hemp]
      · rw [if_neg hemp, hnone]
        cases hs : (pyStrip text.data).findIdx? (fun c => c = '{') with
        | none => cases he : rfindIdx '}' (pyStrip text.data) <;> rfl
        | some s =>
          cases he : rfindIdx '}' (pyStrip text.data) with
          | none => rfl
          | some e =>
            dsimp only
            by_cases hlt : s < e
            · rw [if_pos hlt, hfail s e hs he hlt]
            · rw [if_neg hlt]
    refine ⟨hp, ?_⟩
    unfold generate_pmax_themes_llm
    dsimp only
    rw [hp]
    rfl
  · intro hEq
    have h1 : (generate_pmax_themes_llm (some "x") ["a", "a"] ["d"]).map
        (fun r => r.product.keywords.length) = some 1 := rfl
    rw [hEq] at h1
    simp [fallbackThemes] at h1

theorem c6_json_recovery_witness :
    parse_llm_json "x" = PyVal.dict [] ∧
    generate_pmax_themes_llm (some "x") ["k"] [] = reclassifyThemes [] ["k"] [] :=
  (c6_json_recovery "x" ["k"] []).2.2.1 (by rfl)
    (by
      intro s e hs _ _
      rw [show (pyStrip ("x" : String).data).findIdx? (fun c => c = '{') =
          Option.none from rfl] at hs
      exact Option.noConfusion hs)

/-- C7: `avg_cpc` is the two-decimal rounding of the arithmetic mean of
the midpoints of the parseable CPC ranges (0.0 when none parse); the
volume filter never inspects `cpc_range`, so a malformed range only
drops that keyword's midpoint while the keyword survives; and on the
spec's scenario only `"whey protein"` survives and `avg_cpc = 1.50`. -/
theorem c7_avg_cpc (ks : List KeywordFull) :
    (avgCpc ks = if ks.filterMap midpointOf = [] then 0
      else round2 ((ks.filterMap midpointOf).sum /
        ((ks.filterMap midpointOf).length : ℚ))) ∧
    (∀ (k : KeywordFull) (c : Option String),
      volumeKeep ⟨k.keyword, k.search_volume, k.competition, c⟩ = volumeKeep k) ∧
    filterKeywords
      [⟨"whey protein", some 1000, some "LOW", some "$1.00 - $2.00"⟩,
        ⟨"gym", some 100, some "LOW", Option.none⟩] =
      [⟨"whey protein", some 1000, some "LOW", some "$1.00 - $2.00"⟩] ∧
    avgCpc (filterKeywords
      [⟨"whey protein", some 1000, some "LOW", some "$1.00 - $2.00"⟩,
        ⟨"gym", some 100, some "LOW", Option.none⟩]) = 3 / 2 := by
  refine ⟨?_, ?_, rfl, ?_⟩
  · by_cases h : ks.filterMap midpointOf = []
    · simp [avgCpc, h]
    · have hlen : 1 ≤ (ks.filterMap midpointOf).length :=
        Nat.one_le_iff_ne_zero.mpr (fun h0 => h (List.length_eq_zero.mp h0))
      unfold avgCpc
      rw [if_neg (by simpa [List.isEmpty_eq_true] using h), if_neg h]
      congr 2
      rw [Nat.max_eq_right hlen]
  · intro k c
    rfl
  · rw [show filterKeywords
        [⟨"whey protein", some 1000, some "LOW", some "$1.00 - $2.00"⟩,
          ⟨"gym", some 100, some "LOW", Option.none⟩] =
        [⟨"whey protein", some 1000, some "LOW", some "$1.00 - $2.00"⟩] from rfl]
    have hcpc : parseCpcRange "$1.00 - $2.00" = some (3 / 2) := by
      have h1 : parseCpcRange "$1.00 - $2.00" =
          some ((((1 : ℕ) : ℚ) + ((0 : ℕ) : ℚ) / 10 ^ 2 +
            (((2 : ℕ) : ℚ) + ((0 : ℕ) : ℚ) / 10 ^ 2)) / 2) := rfl
      rw [h1]
      norm_num
    have hmid : midpointOf
        ⟨"whey protein", some 1000, some "LOW", some "$1.00 - $2.00"⟩ =
        some (3 / 2) := by
      rw [show midpointOf
          ⟨"whey protein", some 1000, some "LOW", some "$1.00 - $2.00"⟩ =
          parseCpcRange "$1.00 - $2.00" from rfl]
      exact hcpc
    unfold avgCpc
    rw [show ([⟨"whey protein", some 1000, some "LOW", some "$1.00 - $2.00"⟩] :
        List KeywordFull).filterMap midpointOf =
        ((3 : ℚ) / 2) :: List.filterMap midpointOf [] from by
      rw [List.filterMap_cons, hmid]]
    simp only [List.filterMap_nil, List.isEmpty_cons, List.sum_cons, List.sum_nil,
      List.length_cons, List.length_nil]
    norm_num
    rw [show round2 (3 / 2) = ((roundHalfEven (3 / 2 * 100) : ℤ) : ℚ) / 100 from rfl]
    norm_num [roundHalfEven]

theorem c10_empty_location_token_witness :
    (("," : String).data ≠ [] ∧ [] ∈ splitOnChar ',' ("," : String).data ∧
      pyStrip ([] : List Char) = []) ∧
    groupKeywords "" "" "," [⟨"gym", some 1000, Option.none, Option.none⟩]
      AdGroup.category = [] ∧
    groupKeywords "" "" "," [⟨"gym", some 1000, Option.none, Option.none⟩]
      AdGroup.informational = [] :=
  ⟨⟨by decide, by decide, rfl⟩,
    (c10_empty_location_token "" "" ","
      [⟨"gym", some 1000, Option.none, Option.none⟩] [] (by decide) (by decide) rfl).2.2,
    (c10_empty_location_token "" "" ","
      [⟨"gym", some 1000, Option.none, Option.none⟩] [] (by decide) (by decide) rfl).2.1⟩

end SemBackend
